import Mathlib

/-!
Verification of the Alignment Progress & Content Caching Engine of the
sub-learning frontend.

The development shallowly embeds the Python sources:

* `app/utils/cache.py`                       — `SubtitleCache`
* `app/services/progress_service.py`         — `ProgressService.update_progress`
* `app/services/session_analytics_service.py`— dashboard statistics and streaks
* `app/blueprints/api/subtitles.py`          — `get_subtitle_alignments`

Conventions of the embedding:

* Timestamps (`time.time()`, SQL `current_timestamp`) are modelled as `Int`
  (the claims only use ordering and addition of times, never fractional
  seconds); calendar dates are modelled as integer day numbers and the
  `datetime → date` projection as flooring division by 86400.
* Python dicts are modelled as association lists with insertion order:
  updating an existing key rewrites it in place, a fresh key is appended.
* JSON column values (`link_data`) are modelled by the `PyVal` type below;
  Python truthiness and `len(...)` are modelled by `PyVal.truthy` and
  `PyVal.pyLen` (`len` of a non-sized value raises, hence `Option`).
* Fallible operations return `Except`/`Option`; in the sources every
  validation error is raised before any state is mutated, which the
  embedding reflects by returning the unchanged state on error.
* Python's stable `sorted` is modelled by `List.insertionSort`, which is
  likewise stable.
* Float-valued derived statistics (`completion_percentage`,
  `hit_rate_percent`, `avg_session_duration`, `learning_velocity`,
  `completion_rate`) are not modelled; no claim under scrutiny mentions
  them.
-/

/-- Python-style JSON values as stored in the `link_data` JSON column.
(JSON objects do not occur in any alignment payload handled by the code
paths under scrutiny and are omitted.) -/
inductive PyVal where
  | nullV : PyVal
  | boolV : Bool → PyVal
  | intV : Int → PyVal
  | strV : String → PyVal
  | listV : List PyVal → PyVal

/-- Python truthiness of a `PyVal` (`if value:`). -/
def PyVal.truthy : PyVal → Bool
  | .nullV => false
  | .boolV b => b
  | .intV n => n ≠ 0
  | .strV s => s ≠ ""
  | .listV l => !l.isEmpty

/-- Python `len(value)`: defined for sized values, raises (`none`) otherwise. -/
def PyVal.pyLen : PyVal → Option Nat
  | .listV l => some l.length
  | .strV s => some s.length
  | _ => none

/-- Python `isinstance(value, list)`. -/
def PyVal.isList : PyVal → Bool
  | .listV _ => true
  | _ => false

/-! ### ContentCache — `app/utils/cache.py` (`SubtitleCache`) -/

/-- One cache bucket: composite key `(movie_id, language_id)` (the string
key `subtitles:{movie_id}:{language_id}` built by `_generate_key` is in
bijection with the id pair and is modelled by the pair itself) mapped to
`(content, expiry)` as stored in `self._cache`.  Cached content payloads
are opaque to the cache and modelled as `Nat` tokens. -/
abbrev CacheMap := List ((Nat × Nat) × (Nat × Int))

/-- Python-dict update: an existing key is overwritten in place, a fresh
key is appended (insertion order of `self._cache[key] = value`). -/
def dictSet (m : CacheMap) (k : Nat × Nat) (v : Nat × Int) : CacheMap :=
  if m.any (fun p => decide (p.1 = k)) then
    m.map (fun p => if p.1 = k then (k, v) else p)
  else
    m ++ [(k, v)]

/-- Python-dict lookup `self._cache[key]` / `key in self._cache`. -/
def dictGet (m : CacheMap) (k : Nat × Nat) : Option (Nat × Int) :=
  (m.find? (fun p => decide (p.1 = k))).map (·.2)

/-- State of `SubtitleCache`: the map plus configuration and counters. -/
structure SubtitleCache where
  cache : CacheMap
  defaultTtl : Int
  maxSize : Nat
  hits : Nat
  misses : Nat
deriving DecidableEq, Repr

/-- `SubtitleCache.__init__` (defaults `default_ttl=3600`, `max_size=1000`). -/
def mkSubtitleCache (defaultTtl : Int) (maxSize : Nat) : SubtitleCache :=
  { cache := [], defaultTtl := defaultTtl, maxSize := maxSize, hits := 0, misses := 0 }

/-- `SubtitleCache._is_expired`: `time.time() > timestamp`. -/
def isExpired (now expiry : Int) : Bool :=
  now > expiry

/-- `SubtitleCache._evict_expired`: delete every entry with `now > expiry`. -/
def evictExpired (m : CacheMap) (now : Int) : CacheMap :=
  m.filter (fun p => decide (¬ now > p.2.2))

/-- Comparison used by `_enforce_size_limit`'s `sorted(...)`: ascending
expiry timestamp. -/
def byExpiry (a b : (Nat × Nat) × (Nat × Int)) : Prop :=
  a.2.2 ≤ b.2.2

instance : DecidableRel byExpiry := fun a b => Int.decLe a.2.2 b.2.2

instance : IsTotal ((Nat × Nat) × (Nat × Int)) byExpiry :=
  ⟨fun a b => le_total a.2.2 b.2.2⟩

instance : IsTrans ((Nat × Nat) × (Nat × Int)) byExpiry :=
  ⟨fun _ _ _ h1 h2 => le_trans h1 h2⟩

/-- `SubtitleCache._enforce_size_limit`: if the map exceeds `max_size`,
sort the items by expiry (stably, like Python's `sorted`) and delete the
keys of the first `len - max_size` items from the map. -/
def enforceSizeLimit (m : CacheMap) (maxSize : Nat) : CacheMap :=
  if m.length ≤ maxSize then m
  else
    let sortedItems := m.insertionSort byExpiry
    let toRemove := (sortedItems.take (m.length - maxSize)).map Prod.fst
    m.filter (fun p => decide (¬ p.1 ∈ toRemove))

/-- `SubtitleCache.get`: returns the cached content (hit), or `none` with
the expired entry deleted (miss), or `none` (miss); counters updated
accordingly. -/
def cacheGet (c : SubtitleCache) (now : Int) (movieId languageId : Nat) :
    Option Nat × SubtitleCache :=
  let key := (movieId, languageId)
  match c.cache.find? (fun p => decide (p.1 = key)) with
  | none => (none, { c with misses := c.misses + 1 })
  | some (_, (content, expiry)) =>
    if isExpired now expiry then
      (none, { c with cache := c.cache.filter (fun p => decide (¬ p.1 = key)),
                      misses := c.misses + 1 })
    else
      (some content, { c with hits := c.hits + 1 })

/-- Effective TTL of `SubtitleCache.set`: the Python expression
`ttl = ttl or self.default_ttl` falls back to the default both when `ttl`
is `None` and when it is the falsy integer `0`. -/
def effectiveTtl (c : SubtitleCache) (ttl : Option Int) : Int :=
  match ttl with
  | none => c.defaultTtl
  | some t => if t = 0 then c.defaultTtl else t

/-- `SubtitleCache.set`: store `(content, now + ttl)`, then purge expired
entries, then enforce the size limit. -/
def cacheSet (c : SubtitleCache) (now : Int) (movieId languageId : Nat)
    (content : Nat) (ttl : Option Int) : SubtitleCache :=
  let t := effectiveTtl c ttl
  let expiry := now + t
  let newMap :=
    enforceSizeLimit
      (evictExpired (dictSet c.cache (movieId, languageId) (content, expiry)) now)
      c.maxSize
  { c with cache := newMap }

/-- One `set` invocation, for reasoning about call sequences. -/
structure SetCall where
  now : Int
  movieId : Nat
  languageId : Nat
  content : Nat
  ttl : Option Int

/-- Replay a sequence of `set` calls. -/
def runSets (c : SubtitleCache) (ops : List SetCall) : SubtitleCache :=
  ops.foldl (fun c o => cacheSet c o.now o.movieId o.languageId o.content o.ttl) c

/-- `SubtitleCache.warm_cache`: bulk-insert every `(movie_id, language_id)
↦ content` entry with expiry `now + default_ttl`; no purge and no size
enforcement anywhere in the loop or after it. -/
def warmCache (c : SubtitleCache) (now : Int)
    (subtitleData : List ((Nat × Nat) × Nat)) : SubtitleCache :=
  let newMap :=
    subtitleData.foldl
      (fun m kv => dictSet m kv.1 (kv.2, now + c.defaultTtl)) c.cache
  { c with cache := newMap }

/-! ### ProgressTracker — `app/services/progress_service.py` -/

/-- A `user_progress` row as read and written by `ProgressService`
(the surrogate `id` column plays no role and is omitted). -/
structure UserProgress where
  userId : Nat
  subLinkId : Nat
  currentAlignmentIndex : Int
  totalAlignmentsCompleted : Int
  sessionDurationMinutes : Int
  lastAccessed : Int
deriving DecidableEq, Repr

/-- The slice of database state the progress and analytics services read:
`user_progress` rows, the set of existing `sub_links` ids, and the
`sub_link_lines` rows (`sub_link_id ↦ link_data`). -/
structure ProgressDb where
  progresses : List UserProgress
  subLinks : List Nat
  subLinkLines : List (Nat × PyVal)

/-- Errors raised by `ProgressService` (`ProgressServiceError` with the
respective message). -/
inductive ProgressError where
  | negativeIndex
  | negativeMinutes
  | subLinkNotFound
  | outOfRange
  | internalError
deriving DecidableEq, Repr

/-- `UserProgress.query.filter_by(user_id=..., sub_link_id=...).first()`. -/
def findProgress (l : List UserProgress) (uid sid : Nat) : Option UserProgress :=
  l.find? (fun p => decide (p.userId = uid ∧ p.subLinkId = sid))

/-- Mutating the row object found by the query: the first row matching the
key is replaced, everything else is untouched. -/
def replaceProgress : List UserProgress → Nat → Nat → UserProgress → List UserProgress
  | [], _, _, _ => []
  | q :: rest, uid, sid, p' =>
    if q.userId = uid ∧ q.subLinkId = sid then p' :: rest
    else q :: replaceProgress rest uid sid p'

/-- `total_alignments = len(alignment_data.link_data) if alignment_data and
alignment_data.link_data else 0`; `len` of a truthy non-sized payload
raises, surfacing as a generic service error. -/
def totalAlignmentsOf (db : ProgressDb) (sid : Nat) : Except ProgressError Nat :=
  match db.subLinkLines.find? (fun kv => decide (kv.1 = sid)) with
  | none => .ok 0
  | some (_, v) =>
    if v.truthy then
      match v.pyLen with
      | some n => .ok n
      | none => .error .internalError
    else .ok 0

/-- `ProgressService.update_progress`: validate inputs, bound-check the
index against the alignment total, then merge into (or create) the
`(user_id, sub_link_id)` row.  Returns the new database state, the row as
returned to the caller, and the alignment total. -/
def updateProgress (db : ProgressDb) (now : Int) (uid sid : Nat) (idx mins : Int) :
    Except ProgressError (ProgressDb × UserProgress × Nat) :=
  if idx < 0 then .error .negativeIndex
  else if mins < 0 then .error .negativeMinutes
  else if ¬ db.subLinks.contains sid then .error .subLinkNotFound
  else
    match totalAlignmentsOf db sid with
    | .error e => .error e
    | .ok total =>
      if idx > (total : Int) then .error .outOfRange
      else
        match findProgress db.progresses uid sid with
        | some p =>
          let p' : UserProgress :=
            { p with
              currentAlignmentIndex := idx
              sessionDurationMinutes := p.sessionDurationMinutes + mins
              lastAccessed := now
              totalAlignmentsCompleted := max p.totalAlignmentsCompleted idx }
          .ok ({ db with progresses := replaceProgress db.progresses uid sid p' }, p', total)
        | none =>
          let p' : UserProgress :=
            { userId := uid, subLinkId := sid, currentAlignmentIndex := idx
              totalAlignmentsCompleted := idx, sessionDurationMinutes := mins
              lastAccessed := now }
          .ok ({ db with progresses := db.progresses ++ [p'] }, p', total)

/-- One `update_progress` invocation, for reasoning about call sequences. -/
structure UpdateCall where
  now : Int
  userId : Nat
  subLinkId : Nat
  newIndex : Int
  minutes : Int

/-- Database state after one call: the updated state on success, the prior
state on failure (every validation error is raised before any mutation). -/
def applyUpdate (db : ProgressDb) (c : UpdateCall) : ProgressDb :=
  match updateProgress db c.now c.userId c.subLinkId c.newIndex c.minutes with
  | .ok (db', _, _) => db'
  | .error _ => db

/-- Replay a sequence of `update_progress` calls. -/
def runUpdates (db : ProgressDb) (calls : List UpdateCall) : ProgressDb :=
  calls.foldl applyUpdate db

/-! ### StreakAnalyzer — `app/services/session_analytics_service.py` -/

/-- Result of `calculate_learning_streak` (dates as integer day numbers). -/
structure StreakResult where
  currentStreak : Nat
  longestStreak : Nat
  lastActivityDate : Option Int
  streakStartDate : Option Int
deriving DecidableEq, Repr

/-- The all-zero streak result returned when a user has no progress rows. -/
def emptyStreak : StreakResult :=
  { currentStreak := 0, longestStreak := 0, lastActivityDate := none, streakStartDate := none }

/-- Descending-order comparison used by `sorted(activity_dates, reverse=True)`. -/
def geInt (a b : Int) : Prop := b ≤ a

instance : DecidableRel geInt := fun a b => Int.decLe b a

instance : IsTotal Int geInt := ⟨fun a b => (le_total b a).imp id id⟩

instance : IsTrans Int geInt := ⟨fun _ _ _ h1 h2 => le_trans h2 h1⟩

instance : IsAntisymm Int geInt := ⟨fun _ _ h1 h2 => le_antisymm h2 h1⟩

/-- `sorted(set(activity_dates), reverse=True)`: the distinct activity
dates in descending order. -/
def sortDedupDesc (raw : List Int) : List Int :=
  raw.dedup.insertionSort geInt

/-- The inner loop computing `current_streak`: at loop index `i` the date
must equal `activity_dates[0] - timedelta(days=i)`, and the walk stops at
the first mismatch. -/
def currentRunAux (d0 : Int) : List Int → Int → Nat
  | [], _ => 0
  | x :: xs, i => if x = d0 - i then 1 + currentRunAux d0 xs (i + 1) else 0

/-- The loop computing `longest_streak`: `temp_streak` is extended while
consecutive dates differ by exactly one day, otherwise folded into
`longest_streak`; the final `temp_streak` is folded in at the end. -/
def longestAux (prev : Int) : List Int → Nat → Nat → Nat
  | [], longest, temp => max longest temp
  | x :: xs, longest, temp =>
    if prev - x = 1 then longestAux x xs longest (temp + 1)
    else longestAux x xs (max longest temp) 1

/-- Lines 302–349 of `calculate_learning_streak`: the streak computation
on the collected activity dates (the caller returns `emptyStreak` without
reaching this code when the user has no progress rows; the guard on `raw`
mirrors that). -/
def streakFromDates (raw : List Int) (today : Int) : StreakResult :=
  if raw = [] then emptyStreak
  else
    match sortDedupDesc raw with
    | [] => emptyStreak
    | d0 :: rest =>
      let currentStreak : Nat :=
        if d0 ≥ today - 1 then 1 + currentRunAux d0 rest 1 else 0
      let longestStreak : Nat := longestAux d0 rest 0 1
      let dates := d0 :: rest
      let streakStart : Option Int :=
        if currentStreak > 0 then
          some (dates.getD (min (currentStreak - 1) (dates.length - 1)) 0)
        else none
      { currentStreak := currentStreak
        longestStreak := longestStreak
        lastActivityDate := some d0
        streakStartDate := streakStart }

/-- `datetime → date` projection: integer day number of a timestamp. -/
def dateOfTimestamp (t : Int) : Int :=
  t.fdiv 86400

/-- `UserProgress.query.filter_by(user_id=...)`: the user's progress rows. -/
def userRecords (db : ProgressDb) (uid : Nat) : List UserProgress :=
  db.progresses.filter (fun p => decide (p.userId = uid))

/-- `SessionAnalyticsService.calculate_learning_streak`. -/
def calculateLearningStreak (db : ProgressDb) (uid : Nat) (today : Int) : StreakResult :=
  let records := userRecords db uid
  if records = [] then emptyStreak
  else streakFromDates (records.map (fun p => dateOfTimestamp p.lastAccessed)) today

/-- Integer-valued dashboard statistics of
`SessionAnalyticsService.get_dashboard_statistics` (the float-valued
derived ratios are not modelled; see the header). -/
structure DashboardStats where
  totalStudyMinutes : Int
  moviesCompleted : Nat
  totalAlignments : Int
  currentStreak : Nat
  activeSessions : Nat
  totalSessions : Nat
deriving DecidableEq, Repr

/-- The per-record loop of `get_dashboard_statistics`, threading the
`(active_sessions, movies_completed)` counters.  (The loop also builds an
unused SQL scalar expression that is discarded; having no observable
effect, it is not modelled.) -/
def dashboardLoop (records : List UserProgress) (acc : Nat × Nat) : Nat × Nat :=
  records.foldl
    (fun acc p =>
      (if p.currentAlignmentIndex > 0 then acc.1 + 1 else acc.1,
       if p.totalAlignmentsCompleted > 50 then acc.2 + 1 else acc.2))
    acc

/-- `SessionAnalyticsService.get_dashboard_statistics` (integer fields). -/
def getDashboardStatistics (db : ProgressDb) (uid : Nat) (today : Int) : DashboardStats :=
  let records := userRecords db uid
  if records = [] then
    { totalStudyMinutes := 0, moviesCompleted := 0, totalAlignments := 0
      currentStreak := 0, activeSessions := 0, totalSessions := 0 }
  else
    let counters := dashboardLoop records (0, 0)
    { totalStudyMinutes := (records.map (·.sessionDurationMinutes)).sum
      moviesCompleted := counters.2
      totalAlignments := (records.map (·.totalAlignmentsCompleted)).sum
      currentStreak := (calculateLearningStreak db uid today).currentStreak
      activeSessions := counters.1
      totalSessions := records.length }

/-! ### AlignmentPaginator — `app/blueprints/api/subtitles.py`
(`get_subtitle_alignments`) -/

/-- Database state read by the alignments endpoint: `sub_link_lines`
(`sub_link_id ↦ link_data`) and `sub_lines` (`id ↦ content`; the other
columns of a subtitle line play no role here). -/
structure SubtitleDb where
  subLinkLines : List (Nat × PyVal)
  subLines : List (Int × String)

/-- Error responses of `get_subtitle_alignments` (HTTP code and `code`
field): 400 `INVALID_SUB_LINK_ID`, 400 `INVALID_PAGINATION_PARAMETERS`,
404 `ALIGNMENTS_NOT_FOUND`, 500 `INVALID_ALIGNMENT_DATA`.  The
authentication check (`verify_sub_link_access`) belongs to the excluded
identity collaborator and is not modelled. -/
inductive AlignError where
  | invalidSubLinkId
  | invalidPagination
  | alignmentsNotFound
  | invalidAlignmentData
deriving DecidableEq, Repr

/-- One formatted alignment of the response: absolute index plus the raw
source/target line-id arrays (a non-list component degrades to `[]`). -/
structure FormattedAlignment where
  index : Nat
  sourceLines : List PyVal
  targetLines : List PyVal

/-- The successful response payload (`response_data`). -/
structure AlignmentPage where
  subLinkId : Nat
  alignments : List FormattedAlignment
  subtitleLines : List (Int × String)
  startIndex : Nat
  limit : Int
  totalAlignments : Nat
  hasMore : Bool

/-- Formatting of one element of the paginated slice: elements that are
not lists of length ≥ 2 are skipped, never reported as errors. -/
def formatAlignment (idx : Nat) : PyVal → Option FormattedAlignment
  | .listV (s :: t :: _) =>
    some { index := idx
           sourceLines := match s with | .listV l => l | _ => []
           targetLines := match t with | .listV l => l | _ => [] }
  | _ => none

/-- Line ids referenced by one component of an alignment pair (only
integer elements can match the integer `SubLine.id` primary key). -/
def componentIds : PyVal → List Int
  | .listV l => l.filterMap (fun v => match v with | .intV n => some n | _ => none)
  | _ => []

/-- Union of all source/target line ids of the paginated slice, collected
only from elements that pass the pair-shape check. -/
def collectLineIds (slice : List PyVal) : List Int :=
  slice.flatMap (fun a =>
    match a with
    | .listV (s :: t :: _) => componentIds s ++ componentIds t
    | _ => [])

/-- `get_subtitle_alignments(sub_link_id, start_index, limit)`: parameter
validation, alignment-payload validation, pagination, and formatting.
`limit` is clamped to 50 before being range-checked, as in the source. -/
def getSubtitleAlignments (db : SubtitleDb) (subLinkId : Nat)
    (startIndex limit : Int) : Except AlignError AlignmentPage :=
  if subLinkId = 0 then .error .invalidSubLinkId
  else
    let limit := min limit 50
    if startIndex < 0 ∨ limit ≤ 0 then .error .invalidPagination
    else
      match db.subLinkLines.find? (fun kv => decide (kv.1 = subLinkId)) with
      | none => .error .alignmentsNotFound
      | some (_, linkData) =>
        if ¬ linkData.truthy ∨ ¬ linkData.isList then .error .invalidAlignmentData
        else
          match linkData with
          | .listV l =>
            let total := l.length
            let startN := startIndex.toNat
            let endN := min (startN + limit.toNat) total
            let slice := (l.drop startN).take (endN - startN)
            let lineIds := collectLineIds slice
            let formatted :=
              slice.enum.filterMap (fun p => formatAlignment (startN + p.1) p.2)
            .ok { subLinkId := subLinkId
                  alignments := formatted
                  subtitleLines := db.subLines.filter (fun sl => decide (sl.1 ∈ lineIds))
                  startIndex := startN
                  limit := limit
                  totalAlignments := total
                  hasMore := decide (endN < total) }
          | _ => .error .invalidAlignmentData

/-! ### Spec-side definitions

These two definitions are written from the specification's words, not from
the code; they give the reference values that the embedded code is
compared against. -/

/-- Modelled from the spec: greedy length of the unbroken
consecutive-calendar-day chain of activity dates ending at `d` and walking
backward one day at a time (fuel-bounded; `raw.dedup.length` distinct
dates bound every chain). -/
def specChainAux (raw : List Int) : Int → Nat → Nat
  | _, 0 => 0
  | d, fuel + 1 => if d ∈ raw then 1 + specChainAux raw (d - 1) fuel else 0

/-- Modelled from the spec: the length of the maximal unbroken
consecutive-calendar-day chain of activity dates ending at `d0`. -/
def specChainLen (raw : List Int) (d0 : Int) : Nat :=
  specChainAux raw d0 (raw.dedup.length + 1)

/-! ## Helper lemmas -/

theorem dictGet_eq_some (m : CacheMap) (k : Nat × Nat) (v : Nat × Int)
    (h : dictGet m k = some v) :
    m.find? (fun p => decide (p.1 = k)) = some (k, v) := by
  unfold dictGet at h
  obtain ⟨a, ha, hv⟩ := Option.map_eq_some'.mp h
  have hk : a.1 = k := by
    have := List.find?_some ha
    simpa using this
  have : a = (k, v) := by
    cases a with
    | mk a1 a2 => simp only at hk hv; rw [hk, hv]
  rwa [this] at ha

theorem find?_filter_ne_none (m : CacheMap) (k : Nat × Nat) :
    (m.filter (fun p => decide (¬ p.1 = k))).find? (fun p => decide (p.1 = k)) = none := by
  rw [List.find?_eq_none]
  intro p hp
  have := (List.mem_filter.mp hp).2
  simp at this ⊢
  exact this

/-! ## Claim C2 — cache expiry -/

/-- C2: a `get` on a key whose stored entry has expired returns absent,
removes exactly that entry, and increments the miss counter; and no `get`
call ever returns a value whose expiry has passed. -/
theorem claim2_cache_get_expiry (c : SubtitleCache) (now : Int) (movieId languageId v : Nat)
    (e : Int) (hfound : dictGet c.cache (movieId, languageId) = some (v, e))
    (hexp : now > e) :
    ((cacheGet c now movieId languageId).1 = none ∧
     dictGet (cacheGet c now movieId languageId).2.cache (movieId, languageId) = none ∧
     (cacheGet c now movieId languageId).2.misses = c.misses + 1 ∧
     ∀ p ∈ c.cache, p.1 ≠ (movieId, languageId) →
       p ∈ (cacheGet c now movieId languageId).2.cache) ∧
    ∀ (c' : SubtitleCache) (now' : Int) (m' l' w : Nat),
      (cacheGet c' now' m' l').1 = some w →
      ∃ e', dictGet c'.cache (m', l') = some (w, e') ∧ ¬ now' > e' := by
  constructor
  · have hfind := dictGet_eq_some _ _ _ hfound
    have hexpired : isExpired now e = true := by
      simp [isExpired, hexp]
    simp only [cacheGet, hfind, hexpired, if_true]
    refine ⟨trivial, ?_, trivial, ?_⟩
    · simp only [dictGet, find?_filter_ne_none, Option.map_none']
    · intro p hp hne
      exact List.mem_filter.mpr ⟨hp, by simpa using hne⟩
  · intro c' now' m' l' w h
    cases hf : c'.cache.find? (fun p => decide (p.1 = (m', l'))) with
    | none =>
      simp [cacheGet, hf] at h
    | some a =>
      obtain ⟨k, content, expiry⟩ := a
      by_cases hexp' : isExpired now' expiry
      · simp [cacheGet, hf, hexp'] at h
      · simp only [cacheGet, hf] at h
        rw [if_neg hexp'] at h
        simp only [Option.some.injEq] at h
        refine ⟨expiry, ?_, by simpa [isExpired] using hexp'⟩
        simp only [dictGet, hf, Option.map_some']
        rw [h]

/-- Concrete instantiation of `claim2_cache_get_expiry`: a cache holding
an entry that expired at time 5, queried at time 6. -/
theorem claim2_witness :
    dictGet [((1, 2), (9, 5))] (1, 2) = some (9, 5) ∧
    (6 : Int) > 5 ∧
    (cacheGet ⟨[((1, 2), (9, 5))], 3600, 1000, 0, 0⟩ 6 1 2).1 = none ∧
    dictGet (cacheGet ⟨[((1, 2), (9, 5))], 3600, 1000, 0, 0⟩ 6 1 2).2.cache (1, 2) = none ∧
    (cacheGet ⟨[((1, 2), (9, 5))], 3600, 1000, 0, 0⟩ 6 1 2).2.misses = 1 := by
  have h := claim2_cache_get_expiry ⟨[((1, 2), (9, 5))], 3600, 1000, 0, 0⟩ 6 1 2 9 5
    (by decide) (by decide)
  exact ⟨by decide, by decide, h.1.1, h.1.2.1, h.1.2.2.1⟩

theorem find?_map_overwrite (m : CacheMap) (k' k : Nat × Nat) (v : Nat × Int)
    (hne : k' ≠ k) :
    (m.map (fun q => if q.1 = k' then (k', v) else q)).find? (fun p => decide (p.1 = k)) =
      m.find? (fun p => decide (p.1 = k)) := by
  induction m with
  | nil => rfl
  | cons q m ih =>
    by_cases hq : q.1 = k'
    · rw [List.map_cons, if_pos hq, List.find?_cons_of_neg _ (by simpa using hne),
        List.find?_cons_of_neg _ (by simp [hq, hne]), ih]
    · by_cases hqk : q.1 = k
      · rw [List.map_cons, if_neg hq,
          List.find?_cons_of_pos _ (by simpa using hqk),
          List.find?_cons_of_pos _ (by simpa using hqk)]
      · rw [List.map_cons, if_neg hq,
          List.find?_cons_of_neg _ (by simpa using hqk),
          List.find?_cons_of_neg _ (by simpa using hqk), ih]

theorem find?_dictSet_self (m : CacheMap) (k : Nat × Nat) (v : Nat × Int) :
    (dictSet m k v).find? (fun p => decide (p.1 = k)) = some (k, v) := by
  unfold dictSet
  by_cases hany : m.any (fun p => decide (p.1 = k))
  · rw [if_pos hany]
    induction m with
    | nil => simp at hany
    | cons q m ih =>
      by_cases hq : q.1 = k
      · rw [List.map_cons, if_pos hq, List.find?_cons_of_pos _ (by simp)]
      · have hany' : m.any (fun p => decide (p.1 = k)) := by
          simpa [List.any_cons, hq] using hany
        rw [List.map_cons, if_neg hq, List.find?_cons_of_neg _ (by simpa using hq),
          ih hany']
  · rw [if_neg hany, List.find?_append]
    have hnone : m.find? (fun p => decide (p.1 = k)) = none := by
      rw [List.find?_eq_none]
      intro x hx
      simp only [List.any_eq_true, not_exists, not_and] at hany
      simpa using fun hxk => (by simpa [hxk] using hany x hx)
    rw [hnone]
    simp

theorem find?_dictSet_ne (m : CacheMap) (k' k : Nat × Nat) (v : Nat × Int)
    (hne : k' ≠ k) :
    (dictSet m k' v).find? (fun p => decide (p.1 = k)) =
      m.find? (fun p => decide (p.1 = k)) := by
  unfold dictSet
  by_cases hany : m.any (fun p => decide (p.1 = k'))
  · rw [if_pos hany, find?_map_overwrite m k' k v hne]
  · rw [if_neg hany, List.find?_append]
    cases hm : m.find? (fun p => decide (p.1 = k)) with
    | some a => rfl
    | none => simp [hne]

theorem mem_dictSet_of_ne (m : CacheMap) (k : Nat × Nat) (v : Nat × Int)
    (p : (Nat × Nat) × (Nat × Int)) (hp : p ∈ m) (hne : p.1 ≠ k) :
    p ∈ dictSet m k v := by
  unfold dictSet
  by_cases hany : m.any (fun q => decide (q.1 = k))
  · rw [if_pos hany]
    have := List.mem_map_of_mem (fun q => if q.1 = k then (k, v) else q) hp
    simpa [if_neg hne] using this
  · rw [if_neg hany]
    exact List.mem_append_left _ hp

theorem length_le_dictSet (m : CacheMap) (k : Nat × Nat) (v : Nat × Int) :
    m.length ≤ (dictSet m k v).length := by
  unfold dictSet
  by_cases hany : m.any (fun q => decide (q.1 = k))
  · rw [if_pos hany, List.length_map]
  · rw [if_neg hany, List.length_append]
    simp

/-- Replaying the fold inside `warm_cache` over keys different from `k`
leaves the lookup at `k` unchanged. -/
theorem dictGet_warmFold_of_avoid (e : Int) (ds : List ((Nat × Nat) × Nat)) :
    ∀ (m : CacheMap) (k : Nat × Nat), (∀ kv ∈ ds, k ≠ kv.1) →
      dictGet (ds.foldl (fun m kv => dictSet m kv.1 (kv.2, e)) m) k = dictGet m k := by
  induction ds with
  | nil => exact fun m k _ => rfl
  | cons x xs ihx =>
    intro m k hk
    rw [List.foldl_cons, ihx _ k (fun kv h => hk kv (List.mem_cons_of_mem x h))]
    unfold dictGet
    rw [find?_dictSet_ne _ _ _ _ (fun h => hk x (List.mem_cons_self x xs) (by rw [h]))]

/-- The fold inside `warm_cache`, specified for an arbitrary starting map. -/
theorem warmFold_spec (e : Int) (data : List ((Nat × Nat) × Nat)) :
    ∀ m : CacheMap, (data.map Prod.fst).Nodup →
      (∀ kv ∈ data,
        dictGet (data.foldl (fun m kv => dictSet m kv.1 (kv.2, e)) m) kv.1 = some (kv.2, e)) ∧
      (∀ p ∈ m, (∀ kv ∈ data, p.1 ≠ kv.1) →
        p ∈ data.foldl (fun m kv => dictSet m kv.1 (kv.2, e)) m) ∧
      m.length ≤ (data.foldl (fun m kv => dictSet m kv.1 (kv.2, e)) m).length := by
  induction data with
  | nil => exact fun m _ => ⟨fun kv h => absurd h (List.not_mem_nil kv), fun p hp _ => hp, le_refl _⟩
  | cons d ds ih =>
    intro m hnd
    have hnd' : (ds.map Prod.fst).Nodup := (List.nodup_cons.mp hnd).2
    have hdnotin : d.1 ∉ ds.map Prod.fst := (List.nodup_cons.mp hnd).1
    obtain ⟨ih1, ih2, ih3⟩ := ih (dictSet m d.1 (d.2, e)) hnd'
    refine ⟨?_, ?_, ?_⟩
    · intro kv hkv
      rcases List.mem_cons.mp hkv with h | h
      · subst h
        rw [List.foldl_cons,
          dictGet_warmFold_of_avoid e ds (dictSet m kv.1 (kv.2, e)) kv.1
            (fun x hx hex => hdnotin (hex ▸ List.mem_map_of_mem Prod.fst hx))]
        unfold dictGet
        rw [find?_dictSet_self]
        rfl
      · exact ih1 kv h
    · intro p hp hpk
      rw [List.foldl_cons]
      exact ih2 p
        (mem_dictSet_of_ne m d.1 (d.2, e) p hp (hpk d (List.mem_cons_self d ds)))
        (fun kv h => hpk kv (List.mem_cons_of_mem d h))
    · exact le_trans (length_le_dictSet m d.1 (d.2, e)) ih3

/-! ## Claim C10 — warm_cache bypasses purge and eviction -/

/-- C10: `warm_cache` stores every provided key with expiry
`now + default_ttl`, never removes an entry (in particular it performs no
expiry purge and no size-limit eviction), and leaves `max_size` unchanged,
so an entry count above `max_size` persists after the call. -/
theorem claim10_warm_cache (c : SubtitleCache) (now : Int)
    (subtitleData : List ((Nat × Nat) × Nat))
    (hnd : (subtitleData.map Prod.fst).Nodup) :
    (∀ kv ∈ subtitleData,
      dictGet (warmCache c now subtitleData).cache kv.1 = some (kv.2, now + c.defaultTtl)) ∧
    (∀ p ∈ c.cache, (∀ kv ∈ subtitleData, p.1 ≠ kv.1) →
      p ∈ (warmCache c now subtitleData).cache) ∧
    c.cache.length ≤ (warmCache c now subtitleData).cache.length ∧
    (warmCache c now subtitleData).maxSize = c.maxSize := by
  obtain ⟨h1, h2, h3⟩ := warmFold_spec (now + c.defaultTtl) subtitleData c.cache hnd
  exact ⟨h1, h2, h3, rfl⟩

/-- Concrete instantiation of `claim10_warm_cache`: warming two entries
into an empty cache with `max_size = 1` leaves the cache at size 2,
above its size bound. -/
theorem claim10_witness :
    ([((1, 1), 5), ((2, 2), 6)].map (Prod.fst (α := Nat × Nat) (β := Nat))).Nodup ∧
    dictGet (warmCache (mkSubtitleCache 100 1) 0 [((1, 1), 5), ((2, 2), 6)]).cache (1, 1) =
      some (5, 100) ∧
    dictGet (warmCache (mkSubtitleCache 100 1) 0 [((1, 1), 5), ((2, 2), 6)]).cache (2, 2) =
      some (6, 100) ∧
    (warmCache (mkSubtitleCache 100 1) 0 [((1, 1), 5), ((2, 2), 6)]).cache.length = 2 ∧
    (warmCache (mkSubtitleCache 100 1) 0 [((1, 1), 5), ((2, 2), 6)]).maxSize = 1 := by
  have h := claim10_warm_cache (mkSubtitleCache 100 1) 0 [((1, 1), 5), ((2, 2), 6)]
    (by decide)
  refine ⟨by decide, ?_, ?_, by decide, by decide⟩
  · simpa using h.1 ((1, 1), 5) (by decide)
  · simpa using h.1 ((2, 2), 6) (by decide)

theorem keys_nodup_dictSet (m : CacheMap) (k : Nat × Nat) (v : Nat × Int)
    (hnd : (m.map Prod.fst).Nodup) : ((dictSet m k v).map Prod.fst).Nodup := by
  unfold dictSet
  by_cases hany : m.any (fun p => decide (p.1 = k))
  · rw [if_pos hany]
    have : (m.map (fun p => if p.1 = k then (k, v) else p)).map Prod.fst = m.map Prod.fst := by
      rw [List.map_map]
      refine List.map_congr_left ?_
      intro p _
      by_cases hp : p.1 = k
      · simp [hp]
      · simp [hp]
    rwa [this]
  · rw [if_neg hany, List.map_append]
    rw [List.nodup_append]
    refine ⟨hnd, by simp, ?_⟩
    intro a ha hb
    simp only [List.map_cons, List.map_nil, List.mem_singleton] at hb
    subst hb
    obtain ⟨p, hp, hpk⟩ := List.mem_map.mp ha
    simp only [List.any_eq_true, not_exists, not_and] at hany
    exact absurd (by simpa using hpk) (by simpa using hany p hp)

theorem keys_nodup_filter (m : CacheMap) (f : (Nat × Nat) × (Nat × Int) → Bool)
    (hnd : (m.map Prod.fst).Nodup) : ((m.filter f).map Prod.fst).Nodup :=
  ((List.filter_sublist m).map Prod.fst).nodup hnd

theorem eq_of_mem_of_keys_nodup (m : CacheMap) (p q : (Nat × Nat) × (Nat × Int))
    (hnd : (m.map Prod.fst).Nodup) (hp : p ∈ m) (hq : q ∈ m) (hk : p.1 = q.1) :
    p = q := by
  induction m with
  | nil => exact absurd hp (List.not_mem_nil p)
  | cons r m ih =>
    rw [List.map_cons, List.nodup_cons] at hnd
    rcases List.mem_cons.mp hp with hp1 | hp1 <;> rcases List.mem_cons.mp hq with hq1 | hq1
    · rw [hp1, hq1]
    · exfalso
      apply hnd.1
      have hqm : q.1 ∈ List.map Prod.fst m := List.mem_map_of_mem Prod.fst hq1
      have hrk : r.1 = q.1 := by rw [← hp1]; exact hk
      rwa [hrk]
    · exfalso
      apply hnd.1
      have hpm : p.1 ∈ List.map Prod.fst m := List.mem_map_of_mem Prod.fst hp1
      have hrk : r.1 = p.1 := by rw [← hq1]; exact hk.symm
      rwa [hrk]
    · exact ih hnd.2 hp1 hq1

/-- Specification of `_enforce_size_limit` when it actually evicts: the
result has exactly `maxSize` entries, and every evicted entry expires no
later than every surviving entry. -/
theorem enforceSizeLimit_spec (m : CacheMap) (maxSize : Nat)
    (hnd : (m.map Prod.fst).Nodup) (hlen : maxSize < m.length) :
    (enforceSizeLimit m maxSize).length = maxSize ∧
    (∀ p ∈ m, p ∉ enforceSizeLimit m maxSize →
      ∀ q ∈ enforceSizeLimit m maxSize, p.2.2 ≤ q.2.2) := by
  have hnotle : ¬ m.length ≤ maxSize := not_le.mpr hlen
  set sorted := m.insertionSort byExpiry with hsorted
  set k := m.length - maxSize with hk
  set toRemove := (sorted.take k).map Prod.fst with htr
  have hres : enforceSizeLimit m maxSize =
      m.filter (fun p => decide (¬ p.1 ∈ toRemove)) := by
    unfold enforceSizeLimit
    rw [if_neg hnotle]
  have hperm : sorted.Perm m := List.perm_insertionSort byExpiry m
  have hsortedsorted : List.Sorted byExpiry sorted := List.sorted_insertionSort byExpiry m
  have hsnd : (sorted.map Prod.fst).Nodup := ((hperm.map Prod.fst).nodup_iff).mpr hnd
  have hsplit : sorted.take k ++ sorted.drop k = sorted := List.take_append_drop k sorted
  have hkeysplit : (sorted.take k).map Prod.fst ++ (sorted.drop k).map Prod.fst =
      sorted.map Prod.fst := by rw [← List.map_append, hsplit]
  have hdisj : ((sorted.take k).map Prod.fst).Disjoint ((sorted.drop k).map Prod.fst) := by
    have := hkeysplit ▸ hsnd
    exact (List.nodup_append.mp this).2.2
  have htakemem : ∀ p ∈ sorted.take k, ¬ (decide (¬ p.1 ∈ toRemove)) = true := by
    intro p hp
    simp only [decide_not, Bool.not_eq_true', decide_eq_false_iff_not, not_not]
    exact List.mem_map_of_mem Prod.fst hp
  have hdropmem : ∀ p ∈ sorted.drop k, (decide (¬ p.1 ∈ toRemove)) = true := by
    intro p hp
    simp only [decide_not, Bool.not_eq_true', decide_eq_false_iff_not]
    exact fun hmem => hdisj hmem (List.mem_map_of_mem Prod.fst hp)
  have hfiltersorted :
      sorted.filter (fun p => decide (¬ p.1 ∈ toRemove)) = sorted.drop k := by
    conv_lhs => rw [← hsplit]
    rw [List.filter_append, List.filter_eq_nil_iff.mpr htakemem,
      List.filter_eq_self.mpr hdropmem, List.nil_append]
  have hpermres : (m.filter (fun p => decide (¬ p.1 ∈ toRemove))).Perm (sorted.drop k) := by
    rw [← hfiltersorted]
    exact (hperm.filter _).symm
  constructor
  · rw [hres, hpermres.length_eq, List.length_drop, hperm.length_eq, hk]
    omega
  · intro p hp hpnot q hq
    rw [hres] at hpnot hq
    have hpfail : ¬ (decide (¬ p.1 ∈ toRemove)) = true := by
      intro hpass
      exact hpnot (List.mem_filter.mpr ⟨hp, hpass⟩)
    have hpk : p.1 ∈ toRemove := by
      simpa [decide_not] using hpfail
    obtain ⟨p', hp', hp'k⟩ := List.mem_map.mp hpk
    have hp'm : p' ∈ m := hperm.subset (List.mem_of_mem_take hp')
    have hpp' : p = p' :=
      eq_of_mem_of_keys_nodup m p p' hnd hp hp'm hp'k.symm
    have hqmem : q ∈ m ∧ (decide (¬ q.1 ∈ toRemove)) = true := List.mem_filter.mp hq
    have hqsorted : q ∈ sorted := hperm.mem_iff.mpr hqmem.1
    have hqdrop : q ∈ sorted.drop k := by
      rcases (List.mem_append.mp (hsplit ▸ hqsorted)) with h | h
      · exact absurd hqmem.2 (htakemem q h)
      · exact h
    have := (List.pairwise_append.mp (hsplit ▸ hsortedsorted)).2.2
    exact this p (hpp' ▸ hp') q hqdrop

theorem enforceSizeLimit_subset (m : CacheMap) (maxSize : Nat) :
    ∀ p ∈ enforceSizeLimit m maxSize, p ∈ m := by
  unfold enforceSizeLimit
  by_cases h : m.length ≤ maxSize
  · rw [if_pos h]; exact fun p hp => hp
  · rw [if_neg h]
    exact fun p hp => (List.mem_filter.mp hp).1

theorem enforceSizeLimit_length_le (m : CacheMap) (maxSize : Nat)
    (hnd : (m.map Prod.fst).Nodup) :
    (enforceSizeLimit m maxSize).length ≤ maxSize := by
  by_cases h : m.length ≤ maxSize
  · unfold enforceSizeLimit
    rw [if_pos h]
    exact h
  · exact le_of_eq (enforceSizeLimit_spec m maxSize hnd (not_le.mp h)).1

theorem keys_nodup_enforceSizeLimit (m : CacheMap) (maxSize : Nat)
    (hnd : (m.map Prod.fst).Nodup) :
    ((enforceSizeLimit m maxSize).map Prod.fst).Nodup := by
  unfold enforceSizeLimit
  by_cases h : m.length ≤ maxSize
  · rwa [if_pos h]
  · rw [if_neg h]
    exact keys_nodup_filter m _ hnd

theorem cacheSet_cache_eq (c : SubtitleCache) (now : Int) (movieId languageId content : Nat)
    (ttl : Option Int) :
    (cacheSet c now movieId languageId content ttl).cache =
      enforceSizeLimit
        (evictExpired
          (dictSet c.cache (movieId, languageId) (content, now + effectiveTtl c ttl)) now)
        c.maxSize := rfl

theorem cacheSet_cache_length_le (c : SubtitleCache) (now : Int)
    (movieId languageId content : Nat) (ttl : Option Int)
    (hnd : (c.cache.map Prod.fst).Nodup) :
    (cacheSet c now movieId languageId content ttl).cache.length ≤ c.maxSize := by
  rw [cacheSet_cache_eq]
  exact enforceSizeLimit_length_le _ _
    (keys_nodup_filter _ _ (keys_nodup_dictSet _ _ _ hnd))

theorem keys_nodup_cacheSet (c : SubtitleCache) (now : Int)
    (movieId languageId content : Nat) (ttl : Option Int)
    (hnd : (c.cache.map Prod.fst).Nodup) :
    ((cacheSet c now movieId languageId content ttl).cache.map Prod.fst).Nodup := by
  rw [cacheSet_cache_eq]
  exact keys_nodup_enforceSizeLimit _ _
    (keys_nodup_filter _ _ (keys_nodup_dictSet _ _ _ hnd))

theorem runSets_cache_length_le (ops : List SetCall) :
    ∀ c : SubtitleCache, (c.cache.map Prod.fst).Nodup → ops ≠ [] →
      (runSets c ops).cache.length ≤ c.maxSize := by
  induction ops with
  | nil => exact fun c _ h => absurd rfl h
  | cons o ops ih =>
    intro c hnd _
    cases ops with
    | nil =>
      exact cacheSet_cache_length_le c o.now o.movieId o.languageId o.content o.ttl hnd
    | cons o' ops' =>
      have hnd' := keys_nodup_cacheSet c o.now o.movieId o.languageId o.content o.ttl hnd
      have := ih (cacheSet c o.now o.movieId o.languageId o.content o.ttl) hnd'
        (List.cons_ne_nil o' ops')
      exact this

theorem mem_dictSet_at_key (m : CacheMap) (k : Nat × Nat) (v : Nat × Int) :
    ∀ p ∈ dictSet m k v, p.1 = k → p.2 = v := by
  unfold dictSet
  by_cases hany : m.any (fun q => decide (q.1 = k))
  · rw [if_pos hany]
    intro p hp hpk
    obtain ⟨q, hq, hfq⟩ := List.mem_map.mp hp
    by_cases hqk : q.1 = k
    · rw [if_pos hqk] at hfq
      rw [← hfq]
    · rw [if_neg hqk] at hfq
      exact absurd (hfq ▸ hpk) hqk
  · rw [if_neg hany]
    intro p hp hpk
    rcases List.mem_append.mp hp with h | h
    · simp only [List.any_eq_true, not_exists, not_and] at hany
      exact absurd (by simpa using hpk) (by simpa using hany p h)
    · rw [List.mem_singleton.mp h]

/-! ## Claim C3 — cache set: purge, bounded eviction by expiry -/

/-- C3 counterexample: a `set` call with the explicit TTL `0` does not
store `expiresAt = now + 0`; the falsy-`ttl` fallback in
`ttl = ttl or self.default_ttl` substitutes the default TTL instead
(here `now = 50`, `default_ttl = 100`, stored expiry `150`). -/
theorem claim3_counterexample :
    (cacheSet (mkSubtitleCache 100 10) 50 1 2 7 (some 0)).cache = [((1, 2), (7, 150))] ∧
    (50 : Int) + 0 ≠ 150 := by
  exact ⟨by decide, by decide⟩

/-- C3 (amended: an explicitly passed `ttl = 0` is treated like an absent
TTL and falls back to `default_ttl`; for any nonzero `ttl` the behaviour
is as claimed): `set` stores the value under its key with expiry
`now + ttl`, purges every expired entry, evicts lowest-expiry entries
first, leaves at most `maxSize` entries behind, and consequently the size
bound holds after any nonempty sequence of `set` calls. -/
theorem claim3_cache_set_bound (c : SubtitleCache) (now : Int)
    (movieId languageId content : Nat) (t : Int)
    (hnd : (c.cache.map Prod.fst).Nodup) (ht : t ≠ 0) :
    (cacheSet c now movieId languageId content (some t)).cache.length ≤ c.maxSize ∧
    (∀ p ∈ (cacheSet c now movieId languageId content (some t)).cache, ¬ now > p.2.2) ∧
    (∀ p ∈ (cacheSet c now movieId languageId content (some t)).cache,
      p.1 = (movieId, languageId) → p.2 = (content, now + t)) ∧
    (∀ p ∈ (cacheSet c now movieId languageId content (some t)).cache,
      p ∈ evictExpired (dictSet c.cache (movieId, languageId) (content, now + t)) now) ∧
    (∀ p ∈ evictExpired (dictSet c.cache (movieId, languageId) (content, now + t)) now,
      p ∉ (cacheSet c now movieId languageId content (some t)).cache →
      ∀ q ∈ (cacheSet c now movieId languageId content (some t)).cache, p.2.2 ≤ q.2.2) ∧
    (∀ (c₀ : SubtitleCache) (ops : List SetCall),
      (c₀.cache.map Prod.fst).Nodup → ops ≠ [] →
      (runSets c₀ ops).cache.length ≤ c₀.maxSize) := by
  have hteff : effectiveTtl c (some t) = t := by
    simp [effectiveTtl, ht]
  have hcache : (cacheSet c now movieId languageId content (some t)).cache =
      enforceSizeLimit
        (evictExpired (dictSet c.cache (movieId, languageId) (content, now + t)) now)
        c.maxSize := by
    rw [cacheSet_cache_eq, hteff]
  set purged := evictExpired (dictSet c.cache (movieId, languageId) (content, now + t)) now
    with hpurged
  have hpndk : (purged.map Prod.fst).Nodup :=
    keys_nodup_filter _ _ (keys_nodup_dictSet _ _ _ hnd)
  refine ⟨?_, ?_, ?_, ?_, ?_, ?_⟩
  · exact cacheSet_cache_length_le c now movieId languageId content (some t) hnd
  · intro p hp
    rw [hcache] at hp
    have hppurged : p ∈ purged := enforceSizeLimit_subset _ _ p hp
    have := (List.mem_filter.mp hppurged).2
    simpa using this
  · intro p hp hpk
    rw [hcache] at hp
    have hppurged : p ∈ purged := enforceSizeLimit_subset _ _ p hp
    have hpdict : p ∈ dictSet c.cache (movieId, languageId) (content, now + t) :=
      (List.mem_filter.mp hppurged).1
    exact mem_dictSet_at_key _ _ _ p hpdict hpk
  · intro p hp
    rw [hcache] at hp
    exact enforceSizeLimit_subset _ _ p hp
  · intro p hp hpnot q hq
    rw [hcache] at hpnot hq
    by_cases hsize : purged.length ≤ c.maxSize
    · exfalso
      apply hpnot
      unfold enforceSizeLimit
      rw [if_pos hsize]
      exact hp
    · exact (enforceSizeLimit_spec purged c.maxSize hpndk (not_le.mp hsize)).2
        p hp hpnot q hq
  · exact fun c₀ ops h1 h2 => runSets_cache_length_le ops c₀ h1 h2

/-- Concrete instantiation of `claim3_cache_set_bound`, together with
Scenario 1: with `max_size = 2`, three `set` calls retain exactly the two
entries with the latest expiry. -/
theorem claim3_witness :
    ((mkSubtitleCache 100 2).cache.map Prod.fst).Nodup ∧ (10 : Int) ≠ 0 ∧
    (cacheSet (mkSubtitleCache 100 2) 0 1 1 11 (some 10)).cache.length ≤
      (mkSubtitleCache 100 2).maxSize ∧
    (runSets (mkSubtitleCache 100 2)
        [⟨0, 1, 1, 11, some 10⟩, ⟨0, 2, 2, 12, some 20⟩, ⟨0, 3, 3, 13, some 30⟩]).cache =
      [((2, 2), (12, 20)), ((3, 3), (13, 30))] ∧
    (runSets (mkSubtitleCache 100 2)
        [⟨0, 1, 1, 11, some 10⟩, ⟨0, 2, 2, 12, some 20⟩, ⟨0, 3, 3, 13, some 30⟩]).cache.length ≤
      (mkSubtitleCache 100 2).maxSize := by
  have h := claim3_cache_set_bound (mkSubtitleCache 100 2) 0 1 1 11 10 (by decide) (by decide)
  refine ⟨by decide, by decide, h.1, by decide, ?_⟩
  exact h.2.2.2.2.2 (mkSubtitleCache 100 2)
    [⟨0, 1, 1, 11, some 10⟩, ⟨0, 2, 2, 12, some 20⟩, ⟨0, 3, 3, 13, some 30⟩]
    (by decide) (List.cons_ne_nil _ _)

theorem findProgress_key (l : List UserProgress) (uid sid : Nat) (p : UserProgress)
    (h : findProgress l uid sid = some p) : p.userId = uid ∧ p.subLinkId = sid := by
  have := List.find?_some h
  simpa using this

theorem findProgress_replaceProgress_self (l : List UserProgress) (uid sid : Nat)
    (p' : UserProgress) (hp' : p'.userId = uid ∧ p'.subLinkId = sid)
    (hex : ∃ q, findProgress l uid sid = some q) :
    findProgress (replaceProgress l uid sid p') uid sid = some p' := by
  induction l with
  | nil =>
    obtain ⟨q, hq⟩ := hex
    simp [findProgress] at hq
  | cons r l ih =>
    unfold replaceProgress
    by_cases hr : r.userId = uid ∧ r.subLinkId = sid
    · rw [if_pos hr]
      unfold findProgress
      rw [List.find?_cons_of_pos _ (by simp [hp'.1, hp'.2])]
    · rw [if_neg hr]
      unfold findProgress
      rw [List.find?_cons_of_neg _ (by simpa using hr)]
      apply ih
      obtain ⟨q, hq⟩ := hex
      unfold findProgress at hq
      rw [List.find?_cons_of_neg _ (by simpa using hr)] at hq
      exact ⟨q, hq⟩

theorem findProgress_replaceProgress_ne (l : List UserProgress) (uidR sidR uid sid : Nat)
    (p' : UserProgress) (hkey : ¬ (uidR = uid ∧ sidR = sid))
    (hp' : p'.userId = uidR ∧ p'.subLinkId = sidR) :
    findProgress (replaceProgress l uidR sidR p') uid sid = findProgress l uid sid := by
  induction l with
  | nil => rfl
  | cons r l ih =>
    unfold replaceProgress
    by_cases hr : r.userId = uidR ∧ r.subLinkId = sidR
    · rw [if_pos hr]
      have hp'fail : ¬ (p'.userId = uid ∧ p'.subLinkId = sid) := fun hc =>
        hkey ⟨by rw [← hp'.1]; exact hc.1, by rw [← hp'.2]; exact hc.2⟩
      have hrfail : ¬ (r.userId = uid ∧ r.subLinkId = sid) := fun hc =>
        hkey ⟨by rw [← hr.1]; exact hc.1, by rw [← hr.2]; exact hc.2⟩
      unfold findProgress
      rw [List.find?_cons_of_neg _ (by simpa using hp'fail),
        List.find?_cons_of_neg _ (by simpa using hrfail)]
    · rw [if_neg hr]
      by_cases hrm : r.userId = uid ∧ r.subLinkId = sid
      · unfold findProgress
        rw [List.find?_cons_of_pos _ (by simpa using hrm),
          List.find?_cons_of_pos _ (by simpa using hrm)]
      · unfold findProgress
        rw [List.find?_cons_of_neg _ (by simpa using hrm),
          List.find?_cons_of_neg _ (by simpa using hrm)]
        exact ih

theorem findProgress_append_some (l : List UserProgress) (x : UserProgress)
    (uid sid : Nat) (q : UserProgress) (h : findProgress l uid sid = some q) :
    findProgress (l ++ [x]) uid sid = some q := by
  unfold findProgress at h ⊢
  rw [List.find?_append, h]
  rfl

/-- Case analysis of a successful `update_progress`: it either merged into
the existing row for the key (replacing it in place) or appended a fresh
row, and the returned row carries the key. -/
theorem updateProgress_ok_cases (db : ProgressDb) (now : Int) (uid sid : Nat)
    (idx mins : Int) (db' : ProgressDb) (p' : UserProgress) (t : Nat)
    (h : updateProgress db now uid sid idx mins = .ok (db', p', t)) :
    p'.userId = uid ∧ p'.subLinkId = sid ∧
    ((∃ p, findProgress db.progresses uid sid = some p ∧
      p' = { p with
             currentAlignmentIndex := idx
             sessionDurationMinutes := p.sessionDurationMinutes + mins
             lastAccessed := now
             totalAlignmentsCompleted := max p.totalAlignmentsCompleted idx } ∧
      db'.progresses = replaceProgress db.progresses uid sid p') ∨
    (findProgress db.progresses uid sid = none ∧
      db'.progresses = db.progresses ++ [p'])) := by
  unfold updateProgress at h
  by_cases h0 : idx < 0
  · rw [if_pos h0] at h
    simp at h
  rw [if_neg h0] at h
  by_cases h1 : mins < 0
  · rw [if_pos h1] at h
    simp at h
  rw [if_neg h1] at h
  by_cases h2 : ¬ db.subLinks.contains sid
  · rw [if_pos h2] at h
    simp at h
  rw [if_neg h2] at h
  cases htot : totalAlignmentsOf db sid with
  | error e =>
    rw [htot] at h
    simp at h
  | ok total =>
    rw [htot] at h
    dsimp only at h
    by_cases h3 : idx > (total : Int)
    · rw [if_pos h3] at h
      simp at h
    rw [if_neg h3] at h
    cases hfind : findProgress db.progresses uid sid with
    | some p =>
      rw [hfind] at h
      dsimp only at h
      simp only [Except.ok.injEq, Prod.mk.injEq] at h
      obtain ⟨hdb, hp, _⟩ := h
      have hkey := findProgress_key _ _ _ _ hfind
      refine ⟨?_, ?_, Or.inl ⟨p, hfind.symm ▸ rfl, hp.symm, ?_⟩⟩
      · rw [← hp]; exact hkey.1
      · rw [← hp]; exact hkey.2
      · rw [← hdb, ← hp]
    | none =>
      rw [hfind] at h
      dsimp only at h
      simp only [Except.ok.injEq, Prod.mk.injEq] at h
      obtain ⟨hdb, hp, _⟩ := h
      refine ⟨by rw [← hp], by rw [← hp], Or.inr ⟨hfind.symm ▸ rfl, ?_⟩⟩
      rw [← hdb, ← hp]

/-- One call of `update_progress` (successful or not) never decreases the
farthest-reached counter of any stored row. -/
theorem applyUpdate_farthest_mono (db : ProgressDb) (c : UpdateCall) (uid sid : Nat)
    (q : UserProgress) (hq : findProgress db.progresses uid sid = some q) :
    ∃ q', findProgress (applyUpdate db c).progresses uid sid = some q' ∧
      q.totalAlignmentsCompleted ≤ q'.totalAlignmentsCompleted := by
  unfold applyUpdate
  cases h : updateProgress db c.now c.userId c.subLinkId c.newIndex c.minutes with
  | error e => exact ⟨q, hq, le_refl _⟩
  | ok res =>
    obtain ⟨db', p', t⟩ := res
    obtain ⟨hu, hs, hcases⟩ := updateProgress_ok_cases db _ _ _ _ _ db' p' t h
    by_cases hkeyeq : c.userId = uid ∧ c.subLinkId = sid
    · rcases hcases with ⟨p, hfind, hp', hdb⟩ | ⟨hnone, hdb⟩
      · have hfind' : findProgress db.progresses uid sid = some p := by
          rw [← hkeyeq.1, ← hkeyeq.2]
          exact hfind
        rw [hq] at hfind'
        have hpq : p = q := by injection hfind'.symm
        refine ⟨p', ?_, ?_⟩
        · have hdb' : db'.progresses = replaceProgress db.progresses uid sid p' := by
            rw [hdb, hkeyeq.1, hkeyeq.2]
          rw [hdb']
          exact findProgress_replaceProgress_self db.progresses uid sid p'
            ⟨by rw [hu, hkeyeq.1], by rw [hs, hkeyeq.2]⟩ ⟨q, hq⟩
        · rw [hp', hpq]
          exact le_max_left _ _
      · rw [hkeyeq.1, hkeyeq.2, hq] at hnone
        exact absurd hnone (by simp)
    · rcases hcases with ⟨p, hfind, hp', hdb⟩ | ⟨hnone, hdb⟩
      · refine ⟨q, ?_, le_refl _⟩
        rw [hdb, findProgress_replaceProgress_ne db.progresses c.userId c.subLinkId uid sid p'
          hkeyeq ⟨hu, hs⟩]
        exact hq
      · refine ⟨q, ?_, le_refl _⟩
        rw [hdb]
        exact findProgress_append_some db.progresses p' uid sid q hq

/-- Over any sequence of `update_progress` calls the farthest-reached
counter of any stored row never decreases. -/
theorem runUpdates_farthest_mono (calls : List UpdateCall) :
    ∀ (db : ProgressDb) (uid sid : Nat) (q : UserProgress),
      findProgress db.progresses uid sid = some q →
      ∃ q', findProgress (runUpdates db calls).progresses uid sid = some q' ∧
        q.totalAlignmentsCompleted ≤ q'.totalAlignmentsCompleted := by
  induction calls with
  | nil => exact fun db uid sid q hq => ⟨q, hq, le_refl _⟩
  | cons c cs ih =>
    intro db uid sid q hq
    obtain ⟨q₁, hq₁, hle₁⟩ := applyUpdate_farthest_mono db c uid sid q hq
    obtain ⟨q', hq', hle₂⟩ := ih (applyUpdate db c) uid sid q₁ hq₁
    exact ⟨q', hq', le_trans hle₁ hle₂⟩

/-! ## Claim C1 — update merge semantics and monotone farthest -/

/-- C1: with a prior snapshot and a valid call, `update_progress` sets
`currentIndex := newIndex`, `farthestIndex := max(farthest, newIndex)`,
`accumulatedMinutes += sessionMinutes`, `lastAccessed := now`, and stores
the merged row; moreover the farthest-reached counter of any stored row is
non-decreasing over every sequence of `update_progress` calls. -/
theorem claim1_update_merge_monotone (db : ProgressDb) (now : Int) (uid sid : Nat)
    (idx mins : Int) (p : UserProgress) (t : Nat)
    (hp : findProgress db.progresses uid sid = some p)
    (hsub : db.subLinks.contains sid = true)
    (ht : totalAlignmentsOf db sid = .ok t)
    (h0 : 0 ≤ idx) (h1 : 0 ≤ mins) (h2 : idx ≤ (t : Int)) :
    (∃ db' p',
      updateProgress db now uid sid idx mins = .ok (db', p', t) ∧
      p'.currentAlignmentIndex = idx ∧
      p'.totalAlignmentsCompleted = max p.totalAlignmentsCompleted idx ∧
      p'.sessionDurationMinutes = p.sessionDurationMinutes + mins ∧
      p'.lastAccessed = now ∧
      findProgress db'.progresses uid sid = some p') ∧
    (∀ (db₀ : ProgressDb) (uidW sidW : Nat) (q : UserProgress) (calls : List UpdateCall),
      findProgress db₀.progresses uidW sidW = some q →
      ∃ q', findProgress (runUpdates db₀ calls).progresses uidW sidW = some q' ∧
        q.totalAlignmentsCompleted ≤ q'.totalAlignmentsCompleted) := by
  have hkey := findProgress_key _ _ _ _ hp
  let P : UserProgress := { p with currentAlignmentIndex := idx, sessionDurationMinutes := p.sessionDurationMinutes + mins, lastAccessed := now, totalAlignmentsCompleted := max p.totalAlignmentsCompleted idx }
  refine ⟨⟨{ db with progresses := replaceProgress db.progresses uid sid P }, P, ?_, rfl, rfl, rfl, rfl, ?_⟩, ?_⟩
  · unfold updateProgress
    rw [if_neg (not_lt.mpr h0), if_neg (not_lt.mpr h1), if_neg (not_not_intro hsub), ht]
    dsimp only
    rw [if_neg (not_lt.mpr h2), hp]
  · exact findProgress_replaceProgress_self db.progresses uid sid _
      ⟨hkey.1, hkey.2⟩ ⟨p, hp⟩
  · exact fun db₀ uidW sidW q calls hq => runUpdates_farthest_mono calls db₀ uidW sidW q hq

/-- Concrete instantiation of `claim1_update_merge_monotone`, Scenario 3:
after `update(newIndex=5, minutes=10)` the stored row is
`(current=5, farthest=5, minutes=10)`; a second call
`update(newIndex=3, minutes=5)` yields `current=3`, `farthest=5`,
`minutes=15`. -/
theorem claim1_witness :
    findProgress
        (ProgressDb.mk [⟨1, 1, 5, 5, 10, 10⟩] [1]
          [(1, PyVal.listV (List.replicate 10 PyVal.nullV))]).progresses 1 1 =
      some ⟨1, 1, 5, 5, 10, 10⟩ ∧
    totalAlignmentsOf
        (ProgressDb.mk [⟨1, 1, 5, 5, 10, 10⟩] [1]
          [(1, PyVal.listV (List.replicate 10 PyVal.nullV))]) 1 = .ok 10 ∧
    (∃ db' p',
      updateProgress
          (ProgressDb.mk [⟨1, 1, 5, 5, 10, 10⟩] [1]
            [(1, PyVal.listV (List.replicate 10 PyVal.nullV))]) 20 1 1 3 5 =
        .ok (db', p', 10) ∧
      p'.currentAlignmentIndex = 3 ∧
      p'.totalAlignmentsCompleted = 5 ∧
      p'.sessionDurationMinutes = 15) := by
  have h := claim1_update_merge_monotone
    (ProgressDb.mk [⟨1, 1, 5, 5, 10, 10⟩] [1]
      [(1, PyVal.listV (List.replicate 10 PyVal.nullV))])
    20 1 1 3 5 ⟨1, 1, 5, 5, 10, 10⟩ 10 rfl rfl rfl (by decide) (by decide) (by decide)
  obtain ⟨⟨db', p', heq, hcur, hfar, hmin, _, _⟩, _⟩ := h
  refine ⟨rfl, rfl, db', p', heq, hcur, ?_, ?_⟩
  · rw [hfar]; decide
  · rw [hmin]; decide

/-! ## Claim C4 — out-of-range update fails without side effects -/

/-- C4: when `newIndex` exceeds the alignment total of the associated set,
`update_progress` fails with the out-of-range error and leaves the stored
state completely unchanged. -/
theorem claim4_update_out_of_range (db : ProgressDb) (now : Int) (uid sid : Nat)
    (idx mins : Int) (t : Nat)
    (h0 : 0 ≤ idx) (h1 : 0 ≤ mins)
    (hsub : db.subLinks.contains sid = true)
    (ht : totalAlignmentsOf db sid = .ok t)
    (h2 : (t : Int) < idx) :
    updateProgress db now uid sid idx mins = .error .outOfRange ∧
    applyUpdate db ⟨now, uid, sid, idx, mins⟩ = db := by
  have herr : updateProgress db now uid sid idx mins = .error .outOfRange := by
    unfold updateProgress
    rw [if_neg (not_lt.mpr h0), if_neg (not_lt.mpr h1), if_neg (not_not_intro hsub), ht]
    dsimp only
    rw [if_pos h2]
  refine ⟨herr, ?_⟩
  unfold applyUpdate
  dsimp only
  rw [herr]

/-- Concrete instantiation of `claim4_update_out_of_range`, Scenario 5:
`update(newIndex=11)` against a 10-pair alignment set fails with the
out-of-range error and the stored row is untouched. -/
theorem claim4_witness :
    totalAlignmentsOf
        (ProgressDb.mk [⟨1, 1, 5, 5, 10, 10⟩] [1]
          [(1, PyVal.listV (List.replicate 10 PyVal.nullV))]) 1 = .ok 10 ∧
    updateProgress
        (ProgressDb.mk [⟨1, 1, 5, 5, 10, 10⟩] [1]
          [(1, PyVal.listV (List.replicate 10 PyVal.nullV))]) 20 1 1 11 0 =
      .error .outOfRange ∧
    applyUpdate
        (ProgressDb.mk [⟨1, 1, 5, 5, 10, 10⟩] [1]
          [(1, PyVal.listV (List.replicate 10 PyVal.nullV))]) ⟨20, 1, 1, 11, 0⟩ =
      ProgressDb.mk [⟨1, 1, 5, 5, 10, 10⟩] [1]
        [(1, PyVal.listV (List.replicate 10 PyVal.nullV))] := by
  have h := claim4_update_out_of_range
    (ProgressDb.mk [⟨1, 1, 5, 5, 10, 10⟩] [1]
      [(1, PyVal.listV (List.replicate 10 PyVal.nullV))])
    20 1 1 11 0 10 (by decide) (by decide) rfl rfl (by decide)
  exact ⟨rfl, h.1, h.2⟩

/-- The counter loop of `get_dashboard_statistics` counts the rows with a
positive current index in its first component. -/
theorem dashboardLoop_fst (records : List UserProgress) :
    ∀ acc : Nat × Nat,
      (dashboardLoop records acc).1 =
        acc.1 + records.countP (fun p => decide (p.currentAlignmentIndex > 0)) := by
  unfold dashboardLoop
  induction records with
  | nil => intro acc; simp
  | cons r rs ih =>
    intro acc
    rw [List.foldl_cons, ih, List.countP_cons]
    by_cases hc : r.currentAlignmentIndex > 0 <;> simp [hc] <;> omega

/-! ## Claim C5 — dashboard active sessions -/

/-- C5 counterexample: a user whose single snapshot has
`current_alignment_index = 0` but farthest counter
`total_alignments_completed = 5`: the code reports 0 active sessions,
while counting snapshots with positive farthest counter gives 1. -/
theorem claim5_counterexample :
    (getDashboardStatistics (ProgressDb.mk [⟨1, 1, 0, 5, 10, 100⟩] [1] []) 1 0).activeSessions
      = 0 ∧
    (userRecords (ProgressDb.mk [⟨1, 1, 0, 5, 10, 100⟩] [1] []) 1).countP
      (fun p => decide (p.totalAlignmentsCompleted > 0)) = 1 ∧
    (0 : Nat) ≠ 1 := by
  exact ⟨rfl, rfl, by decide⟩

/-- C5 (amended: the code counts snapshots with a positive *current*
index, not a positive farthest counter): for every user with at least one
snapshot, `active_sessions` equals the number of that user's snapshots
whose `current_alignment_index` is strictly positive. -/
theorem claim5_active_sessions (db : ProgressDb) (uid : Nat) (today : Int)
    (hne : userRecords db uid ≠ []) :
    (getDashboardStatistics db uid today).activeSessions =
      (userRecords db uid).countP (fun p => decide (p.currentAlignmentIndex > 0)) := by
  unfold getDashboardStatistics
  rw [if_neg hne]
  have := dashboardLoop_fst (userRecords db uid) (0, 0)
  simpa using this

/-- Concrete instantiation of `claim5_active_sessions` on the same user as
the counterexample. -/
theorem claim5_witness :
    userRecords (ProgressDb.mk [⟨1, 1, 0, 5, 10, 100⟩] [1] []) 1 ≠ [] ∧
    (getDashboardStatistics (ProgressDb.mk [⟨1, 1, 0, 5, 10, 100⟩] [1] []) 1 0).activeSessions =
      (userRecords (ProgressDb.mk [⟨1, 1, 0, 5, 10, 100⟩] [1] []) 1).countP
        (fun p => decide (p.currentAlignmentIndex > 0)) := by
  exact ⟨by decide, claim5_active_sessions _ 1 0 (by decide)⟩

theorem mem_sortDedupDesc (raw : List Int) (x : Int) :
    x ∈ sortDedupDesc raw ↔ x ∈ raw := by
  unfold sortDedupDesc
  rw [List.mem_insertionSort, List.mem_dedup]

theorem nodup_sortDedupDesc (raw : List Int) : (sortDedupDesc raw).Nodup :=
  (List.perm_insertionSort geInt raw.dedup).nodup_iff.mpr raw.nodup_dedup

theorem sorted_sortDedupDesc (raw : List Int) : List.Sorted geInt (sortDedupDesc raw) :=
  List.sorted_insertionSort geInt raw.dedup

theorem pairwise_gt_sortDedupDesc (raw : List Int) :
    (sortDedupDesc raw).Pairwise (fun a b => b < a) := by
  have hs := sorted_sortDedupDesc raw
  have hn := nodup_sortDedupDesc raw
  have := List.Pairwise.and hs hn
  exact this.imp (fun h => lt_of_le_of_ne h.1 (fun hba => h.2 hba.symm))

theorem length_sortDedupDesc (raw : List Int) :
    (sortDedupDesc raw).length = raw.dedup.length :=
  (List.perm_insertionSort geInt raw.dedup).length_eq

theorem sortDedupDesc_head (raw : List Int) (d0 : Int) (hmem : d0 ∈ raw)
    (hmax : ∀ x ∈ raw, x ≤ d0) :
    ∃ rest, sortDedupDesc raw = d0 :: rest := by
  have hd0 : d0 ∈ sortDedupDesc raw := (mem_sortDedupDesc raw d0).mpr hmem
  cases hdates : sortDedupDesc raw with
  | nil => rw [hdates] at hd0; exact absurd hd0 (List.not_mem_nil d0)
  | cons x rest =>
    refine ⟨rest, ?_⟩
    rw [hdates] at hd0
    have hx : x ∈ raw := (mem_sortDedupDesc raw x).mp (hdates ▸ List.mem_cons_self x rest)
    have hpw := pairwise_gt_sortDedupDesc raw
    rw [hdates, List.pairwise_cons] at hpw
    rcases List.mem_cons.mp hd0 with h | h
    · rw [h]
    · exact absurd (hmax x hx) (not_le.mpr (hpw.1 d0 h))

/-- On a strictly descending list of the activity dates below `d0 - i`,
the index-based walk of the `current_streak` loop computes exactly the
spec's greedy consecutive-day chain length starting at `d0 - i`. -/
theorem specChainAux_eq_currentRunAux (raw : List Int) (d0 : Int) :
    ∀ (l : List Int) (i : Int) (f : Nat),
      l.Pairwise (fun a b => b < a) →
      (∀ y ∈ l, y ≤ d0 - i) →
      (∀ y ∈ l, y ∈ raw) →
      (∀ y, y ∈ raw → y ≤ d0 - i → y ∈ l) →
      l.length ≤ f →
      specChainAux raw (d0 - i) (f + 1) = currentRunAux d0 l i := by
  intro l
  induction l with
  | nil =>
    intro i f _ _ _ hmem _
    have hnot : (d0 - i) ∉ raw := fun hin =>
      absurd (hmem (d0 - i) hin (le_refl _)) (List.not_mem_nil _)
    simp [specChainAux, currentRunAux, hnot]
  | cons x xs ih =>
    intro i f hpw hle hsub hmem hf
    have hxlt : ∀ y ∈ xs, y < x := (List.pairwise_cons.mp hpw).1
    by_cases hx : x = d0 - i
    · have hmemd : (d0 - i) ∈ raw := hx ▸ hsub x (List.mem_cons_self x xs)
      cases f with
      | zero => simp at hf
      | succ fp =>
        have hstep : specChainAux raw (d0 - i) (fp + 1 + 1) =
            1 + specChainAux raw (d0 - i - 1) (fp + 1) := by
          simp [specChainAux, hmemd]
        rw [hstep]
        have harith : d0 - i - 1 = d0 - (i + 1) := by ring
        rw [harith]
        rw [ih (i + 1) fp (List.Pairwise.of_cons hpw) ?hle2 ?hsub2 ?hmem2 ?hf2]
        · show 1 + currentRunAux d0 xs (i + 1) = currentRunAux d0 (x :: xs) i
          simp [currentRunAux, hx]
        case hle2 =>
          intro y hy
          have := hxlt y hy
          omega
        case hsub2 => exact fun y hy => hsub y (List.mem_cons_of_mem x hy)
        case hmem2 =>
          intro y hy hyle
          have hyle' : y ≤ d0 - i := by omega
          rcases List.mem_cons.mp (hmem y hy hyle') with h | h
          · exfalso
            rw [h, hx] at hyle
            omega
          · exact h
        case hf2 => simpa using hf
    · have hxlt' : x < d0 - i :=
        lt_of_le_of_ne (hle x (List.mem_cons_self x xs)) hx
      have hnot : (d0 - i) ∉ raw := by
        intro hin
        rcases List.mem_cons.mp (hmem (d0 - i) hin (le_refl _)) with h | h
        · exact hx h.symm
        · have := hxlt _ h
          omega
      simp [specChainAux, currentRunAux, hnot, hx]

theorem longestAux_ge_acc (l : List Int) :
    ∀ (prev : Int) (lo t : Nat), lo ≤ longestAux prev l lo t ∧ t ≤ longestAux prev l lo t := by
  induction l with
  | nil => exact fun prev lo t => ⟨le_max_left lo t, le_max_right lo t⟩
  | cons x xs ih =>
    intro prev lo t
    unfold longestAux
    by_cases h : prev - x = 1
    · rw [if_pos h]
      exact ⟨(ih x lo (t + 1)).1, le_trans (Nat.le_succ t) (ih x lo (t + 1)).2⟩
    · rw [if_neg h]
      exact ⟨le_trans (le_max_left lo t) (ih x (max lo t) 1).1,
        le_trans (le_max_right lo t) (ih x (max lo t) 1).1⟩

/-- The `longest_streak` accumulator dominates the current run being
counted by the `current_streak` loop. -/
theorem longestAux_ge_run (l : List Int) :
    ∀ (d0 i : Int) (lo t : Nat),
      t + currentRunAux d0 l i ≤ longestAux (d0 - (i - 1)) l lo t := by
  induction l with
  | nil =>
    intro d0 i lo t
    simp [currentRunAux, longestAux, le_max_right]
  | cons x xs ih =>
    intro d0 i lo t
    by_cases hx : x = d0 - i
    · have hcond : (d0 - (i - 1)) - x = 1 := by omega
      have hxnext : x = d0 - ((i + 1) - 1) := by omega
      unfold longestAux currentRunAux
      rw [if_pos hcond, if_pos hx]
      have := ih d0 (i + 1) lo (t + 1)
      rw [← hxnext] at this
      omega
    · have hcond : ¬ (d0 - (i - 1)) - x = 1 := by omega
      unfold longestAux currentRunAux
      rw [if_neg hcond, if_neg hx]
      have := (longestAux_ge_acc xs x (max lo t) 1).1
      have hmax : t ≤ max lo t := le_max_right lo t
      omega

/-! ## Claim C8 — current streak -/

/-- C8: when the most recent activity date is today or yesterday, the
current streak equals the length of the maximal unbroken
consecutive-calendar-day chain ending at the most recent date; an empty
date set, or a most recent date before yesterday, yields a zero current
streak. -/
theorem claim8_current_streak (raw : List Int) (today d0 : Int)
    (hmem : d0 ∈ raw) (hmax : ∀ x ∈ raw, x ≤ d0) :
    ((d0 = today ∨ d0 = today - 1) →
      (streakFromDates raw today).currentStreak = specChainLen raw d0) ∧
    (d0 < today - 1 → (streakFromDates raw today).currentStreak = 0) ∧
    (streakFromDates [] today).currentStreak = 0 := by
  obtain ⟨rest, hdates⟩ := sortDedupDesc_head raw d0 hmem hmax
  have hrawne : raw ≠ [] := by
    intro h
    rw [h] at hmem
    exact absurd hmem (List.not_mem_nil d0)
  have hcur : (streakFromDates raw today).currentStreak =
      if d0 ≥ today - 1 then 1 + currentRunAux d0 rest 1 else 0 := by
    unfold streakFromDates
    rw [if_neg hrawne, hdates]
  refine ⟨?_, ?_, rfl⟩
  · intro hrec
    have hge : d0 ≥ today - 1 := by rcases hrec with h | h <;> omega
    rw [hcur, if_pos hge]
    have hlen : raw.dedup.length = rest.length + 1 := by
      have hl := length_sortDedupDesc raw
      rw [hdates] at hl
      simpa using hl.symm
    have hpw := pairwise_gt_sortDedupDesc raw
    rw [hdates] at hpw
    have hxlt : ∀ y ∈ rest, y < d0 := (List.pairwise_cons.mp hpw).1
    have hstep : specChainLen raw d0 = 1 + specChainAux raw (d0 - 1) raw.dedup.length := by
      simp [specChainLen, specChainAux, hmem]
    rw [hstep, hlen,
      specChainAux_eq_currentRunAux raw d0 rest 1 rest.length
        (List.Pairwise.of_cons hpw)
        (fun y hy => by have := hxlt y hy; omega)
        (fun y hy => (mem_sortDedupDesc raw y).mp (by rw [hdates]; exact List.mem_cons_of_mem d0 hy))
        (fun y hy hyle => by
          have hyd : y ∈ d0 :: rest := by
            rw [← hdates]
            exact (mem_sortDedupDesc raw y).mpr hy
          rcases List.mem_cons.mp hyd with h | h
          · exfalso; omega
          · exact h)
        (le_refl rest.length)]
  · intro hlt
    rw [hcur, if_neg (by omega)]

/-- Concrete instantiation of `claim8_current_streak`, Scenario 4:
activity on days 1000, 999, 998 queried on day 1000 gives a current
streak of 3 (and longest streak 3). -/
theorem claim8_witness :
    (1000 : Int) ∈ ([1000, 999, 998] : List Int) ∧
    (streakFromDates [1000, 999, 998] 1000).currentStreak = specChainLen [1000, 999, 998] 1000 ∧
    (streakFromDates [1000, 999, 998] 1000).currentStreak = 3 ∧
    (streakFromDates [1000, 999, 998] 1000).longestStreak = 3 := by
  have h := claim8_current_streak [1000, 999, 998] 1000 1000 (by decide)
    (by intro x hx; simp only [List.mem_cons, List.not_mem_nil, or_false] at hx; omega)
  have heq := h.1 (Or.inl rfl)
  refine ⟨by decide, heq, ?_, by decide⟩
  rw [heq]
  decide

/-! ## Claim C9 — streak determinism and longest ≥ current -/

/-- C9: the streak computation depends only on the set of activity dates
(hence is deterministic), the longest streak is at least the current
streak, and a non-empty date set yields a longest streak of at least 1. -/
theorem claim9_streak_determinism (rawA rawB : List Int) (today : Int)
    (hmem : ∀ x, x ∈ rawA ↔ x ∈ rawB) :
    streakFromDates rawA today = streakFromDates rawB today ∧
    (streakFromDates rawA today).currentStreak ≤ (streakFromDates rawA today).longestStreak ∧
    (rawA ≠ [] → 1 ≤ (streakFromDates rawA today).longestStreak) := by
  refine ⟨?_, ?_, ?_⟩
  · by_cases hA : rawA = []
    · have hB : rawB = [] := by
        rw [List.eq_nil_iff_forall_not_mem]
        intro x hx
        exact (List.eq_nil_iff_forall_not_mem.mp hA x) ((hmem x).mpr hx)
      rw [hA, hB]
    · have hB : rawB ≠ [] := by
        intro hB
        apply hA
        rw [List.eq_nil_iff_forall_not_mem]
        intro x hx
        exact (List.eq_nil_iff_forall_not_mem.mp hB x) ((hmem x).mp hx)
      have hsort : sortDedupDesc rawA = sortDedupDesc rawB := by
        refine List.eq_of_perm_of_sorted ?_ (sorted_sortDedupDesc rawA) (sorted_sortDedupDesc rawB)
        exact (List.perm_ext_iff_of_nodup (nodup_sortDedupDesc rawA)
          (nodup_sortDedupDesc rawB)).mpr
          (fun a => by rw [mem_sortDedupDesc, mem_sortDedupDesc]; exact hmem a)
      unfold streakFromDates
      rw [if_neg hA, if_neg hB, hsort]
  · by_cases hA : rawA = []
    · rw [hA]
      simp [streakFromDates, emptyStreak]
    · cases hd : sortDedupDesc rawA with
      | nil =>
        exfalso
        have hl := length_sortDedupDesc rawA
        rw [hd] at hl
        have : rawA.dedup = [] := List.length_eq_zero.mp hl.symm
        exact hA ((List.dedup_eq_nil rawA).mp this)
      | cons d0 rest =>
        unfold streakFromDates
        rw [if_neg hA, hd]
        dsimp only
        by_cases hge : d0 ≥ today - 1
        · rw [if_pos hge]
          have hrun := longestAux_ge_run rest d0 1 0 1
          have harith : d0 - ((1 : Int) - 1) = d0 := by ring
          rw [harith] at hrun
          omega
        · rw [if_neg hge]
          exact Nat.zero_le _
  · intro hA
    cases hd : sortDedupDesc rawA with
    | nil =>
      exfalso
      have hl := length_sortDedupDesc rawA
      rw [hd] at hl
      have : rawA.dedup = [] := List.length_eq_zero.mp hl.symm
      exact hA ((List.dedup_eq_nil rawA).mp this)
    | cons d0 rest =>
      unfold streakFromDates
      rw [if_neg hA, hd]
      dsimp only
      exact (longestAux_ge_acc rest d0 0 1).2

/-- Concrete instantiation of `claim9_streak_determinism`: the lists
`[5, 3]` and `[3, 5, 5]` carry the same date set and yield identical
streak results. -/
theorem claim9_witness :
    streakFromDates [5, 3] 6 = streakFromDates [3, 5, 5] 6 ∧
    (streakFromDates [5, 3] 6).currentStreak ≤ (streakFromDates [5, 3] 6).longestStreak ∧
    ([5, 3] : List Int) ≠ [] ∧
    1 ≤ (streakFromDates [5, 3] 6).longestStreak := by
  have h := claim9_streak_determinism [5, 3] [3, 5, 5] 6
    (by
      intro x
      simp only [List.mem_cons, List.not_mem_nil, or_false]
      constructor
      · intro hx; omega
      · intro hx; omega)
  exact ⟨h.1, h.2.1, by decide, h.2.2 (by decide)⟩

/-- Formatting an all-well-formed slice enumerated from `n`: nothing is
dropped, and the entry at position `j` carries absolute index
`base + n + j` and the two id lists of the pair at position `j`. -/
theorem enumFormat_spec (xs : List PyVal) :
    ∀ n base : Nat, (∀ x ∈ xs, ∃ s t, x = PyVal.listV [PyVal.listV s, PyVal.listV t]) →
      ((xs.enumFrom n).filterMap (fun p => formatAlignment (base + p.1) p.2)).length = xs.length ∧
      (∀ j, j < xs.length →
        ∃ s t, xs.get? j = some (PyVal.listV [PyVal.listV s, PyVal.listV t]) ∧
          ((xs.enumFrom n).filterMap (fun p => formatAlignment (base + p.1) p.2)).get? j =
            some ⟨base + n + j, s, t⟩) := by
  induction xs with
  | nil =>
    intro n base _
    exact ⟨rfl, fun j hj => absurd hj (Nat.not_lt_zero j)⟩
  | cons x xs ih =>
    intro n base hw
    obtain ⟨s, t, hx⟩ := hw x (List.mem_cons_self x xs)
    have hfmt : formatAlignment (base + n) x = some ⟨base + n, s, t⟩ := by
      rw [hx]
      rfl
    obtain ⟨ihl, ihg⟩ := ih (n + 1) base (fun y hy => hw y (List.mem_cons_of_mem x hy))
    have hcons : ((x :: xs).enumFrom n).filterMap (fun p => formatAlignment (base + p.1) p.2) =
        (⟨base + n, s, t⟩ : FormattedAlignment) ::
          (xs.enumFrom (n + 1)).filterMap (fun p => formatAlignment (base + p.1) p.2) := by
      rw [List.enumFrom_cons, List.filterMap_cons]
      dsimp only
      rw [hfmt]
    constructor
    · rw [hcons, List.length_cons, ihl, List.length_cons]
    · intro j hj
      cases j with
      | zero =>
        refine ⟨s, t, by rw [hx]; rfl, ?_⟩
        rw [hcons]
        simp
      | succ jp =>
        obtain ⟨s', t', hget, hfm⟩ := ihg jp (by simpa using hj)
        refine ⟨s', t', by simpa using hget, ?_⟩
        rw [hcons]
        have harith : base + (n + 1) + jp = base + n + (jp + 1) := by omega
        simpa [harith] using hfm

/-! ## Claim C6 — malformed alignment payloads -/

/-- C6 counterexample: a stored payload that *is* a list but whose single
element is not a 2-element pair (`[5]`): `get_subtitle_alignments` does
not fail with the invalid-data error — it returns a 200 page in which the
malformed element is silently omitted. -/
theorem claim6_counterexample :
    (∃ page, getSubtitleAlignments (SubtitleDb.mk [(1, PyVal.listV [PyVal.intV 5])] []) 1 0 10 =
        Except.ok page ∧ page.alignments = [] ∧ page.totalAlignments = 1) ∧
    getSubtitleAlignments (SubtitleDb.mk [(1, PyVal.listV [PyVal.intV 5])] []) 1 0 10 ≠
      Except.error AlignError.invalidAlignmentData := by
  constructor
  · exact ⟨_, rfl, rfl, rfl⟩
  · intro h
    rw [show getSubtitleAlignments (SubtitleDb.mk [(1, PyVal.listV [PyVal.intV 5])] []) 1 0 10 =
        Except.ok ⟨1, [], [], 0, 10, 1, false⟩ from rfl] at h
    exact Except.noConfusion h

/-- C6 (amended: the endpoint rejects with the invalid-data error exactly
the payloads that are not lists or are the empty list; a non-empty list
always yields a page, and elements that are not 2-element pairs are
silently omitted from it rather than reported as errors). -/
theorem claim6_invalid_payload (db : SubtitleDb) (sid : Nat) (startIndex limit : Int)
    (v : PyVal)
    (hsid : sid ≠ 0) (hstart : 0 ≤ startIndex) (hlimit : 0 < min limit 50)
    (hfound : db.subLinkLines.find? (fun kv => decide (kv.1 = sid)) = some (sid, v)) :
    ((¬ v.isList = true ∨ v = .listV []) →
      getSubtitleAlignments db sid startIndex limit = .error .invalidAlignmentData) ∧
    (∀ a l, v = .listV (a :: l) →
      ∃ page, getSubtitleAlignments db sid startIndex limit = Except.ok page) := by
  have hpag : ¬ (startIndex < 0 ∨ min limit 50 ≤ 0) := by
    intro hcon
    rcases hcon with hcon | hcon
    · exact absurd hcon (not_lt.mpr hstart)
    · exact absurd hcon (not_le.mpr hlimit)
  constructor
  · intro hbad
    unfold getSubtitleAlignments
    rw [if_neg hsid]
    dsimp only
    rw [if_neg hpag, hfound]
    dsimp only
    have hcond : ¬ v.truthy = true ∨ ¬ v.isList = true := by
      rcases hbad with hbad | hbad
      · exact Or.inr hbad
      · exact Or.inl (by rw [hbad]; simp [PyVal.truthy])
    rw [if_pos hcond]
  · intro a l hv
    subst hv
    unfold getSubtitleAlignments
    rw [if_neg hsid]
    dsimp only
    rw [if_neg hpag, hfound]
    dsimp only
    rw [if_neg (by simp [PyVal.truthy, PyVal.isList])]
    exact ⟨_, rfl⟩

/-- Concrete instantiation of `claim6_invalid_payload`: the integer
payload `7` is rejected with the invalid-data error, while the payload
`[[[1], [2]]]` yields a page. -/
theorem claim6_witness :
    getSubtitleAlignments (SubtitleDb.mk [(1, PyVal.intV 7)] []) 1 0 10 =
      Except.error AlignError.invalidAlignmentData ∧
    (∃ page,
      getSubtitleAlignments
        (SubtitleDb.mk [(1, PyVal.listV [PyVal.listV [PyVal.listV [PyVal.intV 1], PyVal.listV [PyVal.intV 2]]])] [])
        1 0 10 = Except.ok page) := by
  have h1 := claim6_invalid_payload (SubtitleDb.mk [(1, PyVal.intV 7)] []) 1 0 10
    (PyVal.intV 7) (by decide) (by decide) (by decide) rfl
  have h2 := claim6_invalid_payload
    (SubtitleDb.mk [(1, PyVal.listV [PyVal.listV [PyVal.listV [PyVal.intV 1], PyVal.listV [PyVal.intV 2]]])] [])
    1 0 10 (PyVal.listV [PyVal.listV [PyVal.listV [PyVal.intV 1], PyVal.listV [PyVal.intV 2]]])
    (by decide) (by decide) (by decide) rfl
  exact ⟨h1.1 (Or.inl (by simp [PyVal.isList])),
    h2.2 (PyVal.listV [PyVal.listV [PyVal.intV 1], PyVal.listV [PyVal.intV 2]]) [] rfl⟩

/-- Full reduction of `get_subtitle_alignments` on the success path (valid
id, valid pagination, non-empty list payload). -/
theorem getSubtitleAlignments_ok (db : SubtitleDb) (sid : Nat) (startIndex limit : Int)
    (a : PyVal) (l : List PyVal)
    (hsid : sid ≠ 0) (hpag : ¬ (startIndex < 0 ∨ min limit 50 ≤ 0))
    (hfound : db.subLinkLines.find? (fun kv => decide (kv.1 = sid)) =
      some (sid, PyVal.listV (a :: l))) :
    getSubtitleAlignments db sid startIndex limit = Except.ok
      { subLinkId := sid
        alignments := ((((a :: l).drop startIndex.toNat).take
            (min (startIndex.toNat + (min limit 50).toNat) (a :: l).length -
              startIndex.toNat)).enum).filterMap
          (fun p => formatAlignment (startIndex.toNat + p.1) p.2)
        subtitleLines := db.subLines.filter (fun sl => decide (sl.1 ∈ collectLineIds
          (((a :: l).drop startIndex.toNat).take
            (min (startIndex.toNat + (min limit 50).toNat) (a :: l).length -
              startIndex.toNat))))
        startIndex := startIndex.toNat
        limit := min limit 50
        totalAlignments := (a :: l).length
        hasMore := decide
          (min (startIndex.toNat + (min limit 50).toNat) (a :: l).length <
            (a :: l).length) } := by
  unfold getSubtitleAlignments
  rw [if_neg hsid]
  dsimp only
  rw [if_neg hpag, hfound]
  dsimp only
  rw [if_neg (by simp [PyVal.truthy, PyVal.isList])]

/-! ## Claim C7 — pagination of well-formed alignment sets -/

/-- C7 counterexample: the empty alignment payload is a well-formed
(vacuously) ordered sequence of 2-element pairs with `total = 0`, and the
call is a valid `getPage(startIndex=0, limit=10)`, so the claim demands an
empty page with `hasMore = false`; instead the code fails with the
invalid-data error because the empty list is falsy. -/
theorem claim7_counterexample :
    getSubtitleAlignments (SubtitleDb.mk [(1, PyVal.listV [])] []) 1 0 10 =
      Except.error AlignError.invalidAlignmentData ∧
    getSubtitleAlignments (SubtitleDb.mk [(1, PyVal.listV [])] []) 1 0 10 ≠
      Except.ok ⟨1, [], [], 0, 10, 0, false⟩ := by
  refine ⟨rfl, ?_⟩
  intro h
  rw [show getSubtitleAlignments (SubtitleDb.mk [(1, PyVal.listV [])] []) 1 0 10 =
      Except.error AlignError.invalidAlignmentData from rfl] at h
  exact Except.noConfusion h

/-- C7 (amended: restricted to non-empty well-formed alignment sets — the
empty payload is falsy and rejected as invalid data): with
`endIndex = min(startIndex + limit, total)`, the returned page lists
exactly the pairs at indices `[startIndex, endIndex)`, each tagged with
its absolute index, and `hasMore = (endIndex < total)`. -/
theorem claim7_pagination (db : SubtitleDb) (sid : Nat) (startIndex limit : Int)
    (l : List PyVal)
    (hsid : sid ≠ 0) (hstart : 0 ≤ startIndex) (hl1 : 1 ≤ limit) (hl50 : limit ≤ 50)
    (hfound : db.subLinkLines.find? (fun kv => decide (kv.1 = sid)) =
      some (sid, PyVal.listV l))
    (hne : l ≠ [])
    (hw : ∀ x ∈ l, ∃ s t, x = PyVal.listV [PyVal.listV s, PyVal.listV t]) :
    ∃ page, getSubtitleAlignments db sid startIndex limit = Except.ok page ∧
      page.totalAlignments = l.length ∧
      page.hasMore = decide (min (startIndex.toNat + limit.toNat) l.length < l.length) ∧
      page.alignments.length = min (startIndex.toNat + limit.toNat) l.length - startIndex.toNat ∧
      ∀ j, j < min (startIndex.toNat + limit.toNat) l.length - startIndex.toNat →
        ∃ s t, l.get? (startIndex.toNat + j) = some (PyVal.listV [PyVal.listV s, PyVal.listV t]) ∧
          page.alignments.get? j = some ⟨startIndex.toNat + j, s, t⟩ := by
  obtain ⟨a, l', hl⟩ := List.exists_cons_of_ne_nil hne
  subst hl
  have hmin : min limit 50 = limit := min_eq_left hl50
  have hpag : ¬ (startIndex < 0 ∨ min limit 50 ≤ 0) := by
    intro hcon
    rcases hcon with h | h
    · omega
    · rw [hmin] at h
      omega
  have hok := getSubtitleAlignments_ok db sid startIndex limit a l' hsid hpag hfound
  rw [hmin] at hok
  set startN := startIndex.toNat with hstartN
  set endN := min (startN + limit.toNat) (a :: l').length with hendN
  set slice := ((a :: l').drop startN).take (endN - startN) with hsliceDef
  have hEndLe : endN ≤ (a :: l').length := min_le_right _ _
  have hwslice : ∀ x ∈ slice, ∃ s t, x = PyVal.listV [PyVal.listV s, PyVal.listV t] := by
    intro x hx
    exact hw x (List.mem_of_mem_drop (List.mem_of_mem_take hx))
  have hslen : slice.length = endN - startN := by
    rw [hsliceDef, List.length_take, List.length_drop]
    exact Nat.min_eq_left (Nat.sub_le_sub_right hEndLe startN)
  obtain ⟨hflen, hfget⟩ := enumFormat_spec slice 0 startN hwslice
  refine ⟨_, hok, rfl, rfl, ?_, ?_⟩
  · show (slice.enum.filterMap (fun p => formatAlignment (startN + p.1) p.2)).length =
      endN - startN
    rw [show slice.enum = List.enumFrom 0 slice from rfl, hflen, hslen]
  · intro j hj
    have hjslice : j < slice.length := by rw [hslen]; exact hj
    obtain ⟨s, t, hg, hfm⟩ := hfget j hjslice
    have hgl : (a :: l').get? (startN + j) =
        some (PyVal.listV [PyVal.listV s, PyVal.listV t]) := by
      rw [← hg, hsliceDef, List.get?_eq_getElem?, List.get?_eq_getElem?,
        List.getElem?_take, if_pos hj, List.getElem?_drop]
    refine ⟨s, t, hgl, ?_⟩
    show (slice.enum.filterMap (fun p => formatAlignment (startN + p.1) p.2)).get? j =
      some ⟨startN + j, s, t⟩
    rw [show slice.enum = List.enumFrom 0 slice from rfl]
    have harith : startN + 0 + j = startN + j := by omega
    rw [harith] at hfm
    exact hfm

/-- Concrete instantiation of `claim7_pagination`, Scenario 2: a 10-pair
alignment set paged with `startIndex = 8`, `limit = 5` yields exactly the
2 alignments at absolute indices 8 and 9 with `hasMore = false`. -/
theorem claim7_witness :
    ∃ page,
      getSubtitleAlignments
        (SubtitleDb.mk [(1, PyVal.listV (List.replicate 10
          (PyVal.listV [PyVal.listV [PyVal.intV 1], PyVal.listV [PyVal.intV 2]])))] [])
        1 8 5 = Except.ok page ∧
      page.totalAlignments = 10 ∧
      page.hasMore = false ∧
      page.alignments.length = 2 ∧
      (∃ s t, page.alignments.get? 0 = some ⟨8, s, t⟩) ∧
      (∃ s t, page.alignments.get? 1 = some ⟨9, s, t⟩) := by
  obtain ⟨page, hok, htot, hmore, hlen, hget⟩ :=
    claim7_pagination
      (SubtitleDb.mk [(1, PyVal.listV (List.replicate 10
        (PyVal.listV [PyVal.listV [PyVal.intV 1], PyVal.listV [PyVal.intV 2]])))] [])
      1 8 5
      (List.replicate 10 (PyVal.listV [PyVal.listV [PyVal.intV 1], PyVal.listV [PyVal.intV 2]]))
      (by decide) (by decide) (by decide) (by decide) rfl
      (fun h => by have := congrArg List.length h; simp at this)
      (fun x hx => ⟨[PyVal.intV 1], [PyVal.intV 2], List.eq_of_mem_replicate hx⟩)
  refine ⟨page, hok, ?_, ?_, ?_, ?_, ?_⟩
  · rw [htot]
    decide
  · rw [hmore]
    decide
  · rw [hlen]
    decide
  · obtain ⟨s, t, _, hp⟩ := hget 0 (by decide)
    exact ⟨s, t, hp⟩
  · obtain ⟨s, t, _, hp⟩ := hget 1 (by decide)
    exact ⟨s, t, hp⟩
